import Mathlib

/-!
Shallow embedding of the score-weaver-hub leaderboard application.

Source layout:
* the SQL migration (tables `profiles`, `user_roles`, `leaderboard_members`,
  the signup trigger `handle_new_user`, and the statement-level rank-recompute
  trigger `update_leaderboard_ranks`);
* `AdminPanel` (client CRUD: `fetchMembers`, `updateRanks`, `handleAddMember`,
  `handleSaveEdit`, `handleDeleteMember`, and the edit-score input coercion);
* `Leaderboard` / `Admin` (fetch with display-rank assignment, podium split,
  `checkAdminStatus` in both components).

Timestamps are modelled as naturals, UUIDs as naturals, SQL INTEGER scores as
integers.  The database is a list of rows; an SQL statement keeps the stored
row order and rewrites fields, exactly as the corresponding UPDATE does.
-/

namespace ScoreWeaver

/-- A row of `leaderboard_members`: id (UUID), name, integer score, optional
avatar URL, creation timestamp, stored rank column. -/
structure Row where
  id : Nat
  name : String
  score : Int
  avatar_url : Option String
  created_at : Nat
  rank : Int
deriving DecidableEq, Repr, Inhabited

/-- The leaderboard_members table, in stored row order. -/
abbrev Table := List Row

/-! ### JS `parseInt` (radix 10 with the `0x` auto-radix case), as used by the
admin panel's score inputs. `none` models `NaN`. -/

/-- Value of a decimal digit character, `none` for non-digits. -/
def digitVal (c : Char) : Option Nat :=
  if c.isDigit then some (c.toNat - 48) else none

/-- Value of a hexadecimal digit character, `none` for non-hex-digits. -/
def hexVal (c : Char) : Option Nat :=
  if c.isDigit then some (c.toNat - 48)
  else if 'a' ≤ c ∧ c ≤ 'f' then some (c.toNat - 87)
  else if 'A' ≤ c ∧ c ≤ 'F' then some (c.toNat - 55)
  else none

/-- Fold a digit run into a natural in the given base. -/
def foldDigits (base : Nat) (ds : List Nat) : Nat :=
  ds.foldl (fun a d => a * base + d) 0

/-- JS `parseInt(s)` (no explicit radix): trim leading whitespace, optional
sign, then either a `0x`/`0X`-prefixed hexadecimal digit run or a decimal
digit run; `NaN` (here `none`) when no digit is found. Trailing garbage is
ignored, as in JS. -/
def parseIntJS (s : String) : Option Int :=
  let cs := s.toList.dropWhile Char.isWhitespace
  let (sign, rest) : Int × List Char :=
    match cs with
    | '-' :: r => (-1, r)
    | '+' :: r => (1, r)
    | r => (1, r)
  match rest with
  | '0' :: 'x' :: r =>
      let ds := (r.takeWhile (fun c => (hexVal c).isSome)).filterMap hexVal
      if ds.isEmpty then none else some (sign * (foldDigits 16 ds : Int))
  | '0' :: 'X' :: r =>
      let ds := (r.takeWhile (fun c => (hexVal c).isSome)).filterMap hexVal
      if ds.isEmpty then none else some (sign * (foldDigits 16 ds : Int))
  | r =>
      let ds := (r.takeWhile Char.isDigit).filterMap digitVal
      if ds.isEmpty then none else some (sign * (foldDigits 10 ds : Int))

/-! ### Orderings -/

/-- The trigger's ordering `ORDER BY score DESC, created_at ASC` as a total
preorder: `a` may be placed no later than `b`. -/
def dbLe (a b : Row) : Prop :=
  b.score < a.score ∨ (a.score = b.score ∧ a.created_at ≤ b.created_at)

instance : DecidableRel dbLe := fun a b =>
  decidable_of_iff (b.score < a.score ∨ (a.score = b.score ∧ a.created_at ≤ b.created_at))
    Iff.rfl

instance : IsTotal Row dbLe := by
  constructor; intro a b; unfold dbLe; omega

instance : IsTrans Row dbLe := by
  constructor; intro a b c; unfold dbLe; omega

/-- The admin panel's comparator `(a, b) => b.score - a.score`, read as the
total preorder "a may stay before b": `b.score ≤ a.score`. -/
def clientLe (a b : Row) : Prop := b.score ≤ a.score

instance : DecidableRel clientLe := fun a b =>
  decidable_of_iff (b.score ≤ a.score) Iff.rfl

instance : IsTotal Row clientLe := by
  constructor; intro a b; unfold clientLe; omega

instance : IsTrans Row clientLe := by
  constructor; intro a b c; unfold clientLe; omega

/-- Strictly earlier in the trigger's ordering: strictly higher score, or an
equal score with strictly earlier creation. -/
def ranksBefore (a b : Row) : Prop :=
  b.score < a.score ∨ (a.score = b.score ∧ a.created_at < b.created_at)

instance : DecidableRel ranksBefore := fun a b =>
  decidable_of_iff (b.score < a.score ∨ (a.score = b.score ∧ a.created_at < b.created_at))
    Iff.rfl

/-! ### The rank-recompute trigger (`update_leaderboard_ranks`) -/

/-- Ids in the trigger's `ROW_NUMBER() OVER (ORDER BY score DESC, created_at
ASC)` order. -/
def sortedIds (t : Table) : List Nat :=
  (List.insertionSort dbLe t).map Row.id

/-- The new rank the trigger's subquery assigns to the row with id `i`:
one plus its position in the sorted order. -/
def dbRank (t : Table) (i : Nat) : Int :=
  ((sortedIds t).indexOf i : Int) + 1

/-- The trigger body: `UPDATE leaderboard_members SET rank = ranked.new_rank
FROM (...) ranked WHERE leaderboard_members.id = ranked.id`.  Every row gets
the row-number of its id in the score-desc/created-asc order. -/
def update_leaderboard_ranks (t : Table) : Table :=
  t.map (fun r => { r with rank := dbRank t r.id })

/-- A mutation statement on `leaderboard_members`. An update carries the SET
clause as a row transformer applied to the matching row. -/
inductive Stmt where
  | insert (r : Row)
  | update (i : Nat) (g : Row → Row)
  | delete (i : Nat)

/-- The raw effect of a statement, before the trigger fires. -/
def execStmt : Stmt → Table → Table
  | .insert r, t => t ++ [r]
  | .update i g, t => t.map (fun r => if r.id = i then g r else r)
  | .delete i, t => t.filter (fun r => r.id ≠ i)

/-- A committed statement: the raw effect followed by the `AFTER ... FOR EACH
STATEMENT` trigger `update_leaderboard_ranks`. -/
def commitStmt (s : Stmt) (t : Table) : Table :=
  update_leaderboard_ranks (execStmt s t)

/-- The spec's rank invariant: the rank column is the contiguous sequence
`1..N` (as a multiset), and respects the score-desc/created-asc ordering. -/
def ranksConsistent (t : Table) : Prop :=
  (t.map Row.rank).Perm ((List.range t.length).map (fun n : Nat => ((n : Int) + 1))) ∧
  ∀ r ∈ t, ∀ s ∈ t, ranksBefore r s → r.rank < s.rank

instance (t : Table) : Decidable (ranksConsistent t) := by
  unfold ranksConsistent; infer_instance

/-! ### The admin panel's client-side rank rewrite (`updateRanks`) -/

/-- `[...members].sort((a, b) => b.score - a.score)`: JS `sort` is stable, so
the result is the stable sort of the loaded list by score descending; ties
keep the loaded order. -/
def updateRanksSorted (members : List Row) : List Row :=
  List.insertionSort clientLe members

/-- `(id, rank)` pairs from position `k` on: position `i` (0-based) is written
rank `i + 1`, mirroring `update({ rank: i + 1 }).eq('id', sortedMembers[i].id)`. -/
def writesFrom : Nat → List Row → List (Nat × Int)
  | _, [] => []
  | k, r :: rs => (r.id, (k : Int) + 1) :: writesFrom (k + 1) rs

/-- The full list of rank writes the `updateRanks` loop issues, in order. -/
def updateRanksWrites (members : List Row) : List (Nat × Int) :=
  writesFrom 0 (updateRanksSorted members)

/-- The raw effect of one rank write on the table (the UPDATE statement
itself, before any trigger). -/
def applyWrite (t : Table) (w : Nat × Int) : Table :=
  t.map (fun r => if r.id = w.1 then { r with rank := w.2 } else r)

/-- One client rank write as committed by the database: the UPDATE plus the
statement-level rank-recompute trigger. -/
def commitWrite (t : Table) (w : Nat × Int) : Table :=
  update_leaderboard_ranks (applyWrite t w)

/-- The whole `updateRanks` loop as seen by the database (each of the N
round trips commits separately, each firing the trigger). -/
def runUpdateRanksDB (members : List Row) (t : Table) : Table :=
  (updateRanksWrites members).foldl commitWrite t

/-- The table after the `updateRanks` loop fails at iteration `j` (0-based):
the first `j` writes were committed — each a separate transaction whose
statement-level rank-recompute trigger fired — the failing write and all
later ones are never issued, and the `catch` only logs, so nothing is rolled
back or compensated. -/
def updateRanksFailedAt (members : List Row) (t : Table) (j : Nat) : Table :=
  ((updateRanksWrites members).take j).foldl commitWrite t

/-! ### `handleAddMember` -/

/-- Outcome of an add attempt: the invalid-score toast-and-return path, or a
successful insert. -/
inductive AddOutcome where
  | invalidScore
  | success
deriving DecidableEq, Repr

/-- The row the insert statement carries: the form fields, an empty avatar
becoming NULL, and the placeholder rank `members.length + 1`. -/
def newRowOf (nm : String) (n : Int) (avatar : String) (members : List Row)
    (newId ts : Nat) : Row :=
  { id := newId, name := nm, score := n,
    avatar_url := if avatar = "" then none else some avatar,
    created_at := ts, rank := (members.length : Int) + 1 }

/-- `handleAddMember`: `parseInt` the score field; on `NaN` show the
"Invalid Score" toast and return without touching the table; otherwise insert
the new row (placeholder rank) and run `updateRanks` over the still-loaded
`members` state.  Database effects include the trigger after each statement. -/
def handleAddMember (nm scoreStr avatar : String) (members : List Row)
    (t : Table) (newId ts : Nat) : AddOutcome × Table :=
  match parseIntJS scoreStr with
  | none => (.invalidScore, t)
  | some n =>
      (.success,
        runUpdateRanksDB members
          (commitStmt (.insert (newRowOf nm n avatar members newId ts)) t))

/-! ### The edit path -/

/-- The editable draft (`EditingMember`). -/
structure EditingMember where
  id : Nat
  name : String
  score : Int
  avatar_url : String
deriving DecidableEq, Repr

/-- The edit-score input's onChange handler: `parseInt(e.target.value) || 0`.
Both `NaN` and `0` are falsy, so both coerce to `0`; no rejection occurs. -/
def editScoreOnChange (value : String) : Int :=
  match parseIntJS value with
  | some n => if n = 0 then 0 else n
  | none => 0

/-- The UPDATE issued by `handleSaveEdit`: write the draft's name, score and
avatar (empty avatar becoming NULL) to the row with the draft's id.  There is
no validation branch on this path. -/
def handleSaveEdit (e : EditingMember) (t : Table) : Table :=
  t.map (fun r =>
    if r.id = e.id then
      { r with name := e.name, score := e.score,
               avatar_url := if e.avatar_url = "" then none else some e.avatar_url }
    else r)

/-! ### The leaderboard view (`fetchLeaderboard`, podium split) -/

/-- A list the `select('*').order('score', Bool.false)` fetch may return:
some permutation of the table that is sorted by score descending.  No
secondary ordering is requested, so tied scores may come back in any order. -/
def IsFetchResult (t : Table) (l : List Row) : Prop :=
  l.Perm t ∧ l.Pairwise clientLe

instance (t : Table) (l : List Row) : Decidable (IsFetchResult t l) := by
  unfold IsFetchResult; infer_instance

/-- `data.map((member, idx) => ({ ...member, rank: idx + 1 }))` from position
`i` on: each fetched row's displayed rank is its 1-indexed array position. -/
def assignDisplayRanks : Nat → List Row → List Row
  | _, [] => []
  | i, r :: rs => { r with rank := (i : Int) + 1 } :: assignDisplayRanks (i + 1) rs

/-- `fetchLeaderboard`'s state update: the fetched list with display ranks
assigned by array position, ignoring the stored rank column. -/
def fetchLeaderboard (l : List Row) : List Row :=
  assignDisplayRanks 0 l

/-- `members.slice(0, 3)`. -/
def topThree (ms : List Row) : List Row := ms.take 3

/-- `members.slice(3)`. -/
def remainingRows (ms : List Row) : List Row := ms.drop 3

/-- Ties are ordered by creation time ascending: whenever two entries of the
sequence have equal scores, the earlier entry was created no later. -/
def tiesCreatedAsc (l : List Row) : Prop :=
  l.Pairwise (fun a b => a.score = b.score → a.created_at ≤ b.created_at)

instance (l : List Row) : Decidable (tiesCreatedAsc l) := by
  unfold tiesCreatedAsc; infer_instance

/-! ### The admin check -/

/-- A row of `user_roles`. -/
structure RoleRow where
  id : Nat
  user_id : Nat
  role : String
deriving DecidableEq, Repr

/-- Outcome of the `user_roles` query `.select('role').eq('user_id', uid)
.eq('role', 'admin').single()`: a returned row, the no-row error, or a
transport failure. -/
inductive QueryOutcome where
  | ok (role : String)
  | noRow
  | failure
deriving DecidableEq, Repr

/-- The query's semantics over the table: `.single()` yields a row exactly
when the filter matches one row, errors otherwise; a transport failure also
errors. -/
def adminRoleQuery (roles : List RoleRow) (uid : Nat) (netFail : Bool) :
    QueryOutcome :=
  if netFail then .failure
  else
    match roles.filter (fun r => r.user_id = uid ∧ r.role = "admin") with
    | [r] => .ok r.role
    | [] => .noRow
    | _ => .failure

/-- `checkAdminStatus` in `Leaderboard`: `isAdmin` starts `false`, is set to
`true` only when the query returned data, and is left `false` on no user, no
row, or any error. -/
def checkAdminStatusLeaderboard (user : Option Nat) (roles : List RoleRow)
    (netFail : Bool) : Bool :=
  match user with
  | none => false
  | some uid =>
      match adminRoleQuery roles uid netFail with
      | .ok _ => true
      | _ => false

/-- `checkAdminStatus` in `Admin`: data present sets `true`; the else branch
and the catch branch both set `false` (with the Access Denied toast). -/
def checkAdminStatusAdminPage (user : Option Nat) (roles : List RoleRow)
    (netFail : Bool) : Bool :=
  match user with
  | none => false
  | some uid =>
      match adminRoleQuery roles uid netFail with
      | .ok _ => true
      | .noRow => false
      | .failure => false

/-! ### The signup trigger (`handle_new_user`) -/

/-- A row of `auth.users` as the trigger sees it: id, email, optional
`raw_user_meta_data ->> 'full_name'`. -/
structure AuthUser where
  id : Nat
  email : String
  full_name_meta : Option String
deriving DecidableEq, Repr

/-- A row of `profiles`. -/
structure Profile where
  id : Nat
  email : String
  full_name : Option String
  role : String
deriving DecidableEq, Repr

/-- The database state the signup flow touches. -/
structure DBState where
  auth_users : List AuthUser
  profiles : List Profile
  user_roles : List RoleRow
deriving Repr

/-- The trigger body `handle_new_user`: insert one `profiles` row (full name
coalesced to the email) and one `user_roles` row with role `user`, both for
`NEW.id`. -/
def handle_new_user (st : DBState) (u : AuthUser) (roleRowId : Nat) : DBState :=
  { st with
    profiles := st.profiles ++
      [{ id := u.id, email := u.email,
         full_name := some (u.full_name_meta.getD u.email), role := "user" }],
    user_roles := st.user_roles ++ [{ id := roleRowId, user_id := u.id, role := "user" }] }

/-- A signup: the `auth.users` insert together with the `AFTER INSERT`
trigger `handle_new_user`, one atomic transaction. -/
def signupNewUser (st : DBState) (u : AuthUser) (roleRowId : Nat) : DBState :=
  handle_new_user { st with auth_users := st.auth_users ++ [u] } u roleRowId

/-! ### Lemmas about the rank-recompute trigger -/

theorem map_id_update_leaderboard_ranks (t : Table) :
    (update_leaderboard_ranks t).map Row.id = t.map Row.id := by
  simp [update_leaderboard_ranks, List.map_map, Function.comp_def]

theorem length_update_leaderboard_ranks (t : Table) :
    (update_leaderboard_ranks t).length = t.length := by
  simp [update_leaderboard_ranks]

theorem sortedIds_perm (t : Table) : (sortedIds t).Perm (t.map Row.id) :=
  (List.perm_insertionSort dbLe t).map Row.id

theorem sortedIds_nodup {t : Table} (h : (t.map Row.id).Nodup) :
    (sortedIds t).Nodup :=
  ((sortedIds_perm t).nodup_iff).2 h

theorem length_sortedIds (t : Table) : (sortedIds t).length = t.length := by
  simp [sortedIds, List.length_insertionSort]

theorem rerank_ranks_perm {u : Table} (h : (u.map Row.id).Nodup) :
    ((update_leaderboard_ranks u).map Row.rank).Perm
      ((List.range u.length).map (fun n : Nat => ((n : Int) + 1))) := by
  have hmap : (update_leaderboard_ranks u).map Row.rank
      = u.map (fun r => dbRank u r.id) := by
    simp [update_leaderboard_ranks, List.map_map, Function.comp_def]
  have hnd : (sortedIds u).Nodup := sortedIds_nodup h
  have heq : (List.insertionSort dbLe u).map (fun r => dbRank u r.id)
      = (List.range u.length).map (fun n : Nat => ((n : Int) + 1)) := by
    apply List.ext_getElem
    · simp only [List.length_map, List.length_insertionSort, List.length_range]
    · intro k hk hk'
      have hk1 : k < (List.insertionSort dbLe u).length := by
        simpa only [List.length_map] using hk
      have hk2 : k < (sortedIds u).length := by
        simpa only [length_sortedIds, List.length_insertionSort] using hk1
      have hid : ((List.insertionSort dbLe u)[k]).id = (sortedIds u)[k] := by
        simp only [sortedIds, List.getElem_map]
      have hidx : (sortedIds u).indexOf ((sortedIds u)[k]) = k :=
        List.indexOf_getElem hnd k hk2
      simp only [List.getElem_map, List.getElem_range, dbRank, hid, hidx]
  rw [hmap]
  exact (((List.perm_insertionSort dbLe u).map _).symm).trans (by rw [heq])

theorem rerank_rank_lt {u : Table} (h : (u.map Row.id).Nodup)
    {r s : Row} (hr : r ∈ u) (hs : s ∈ u) (hrb : ranksBefore r s) :
    dbRank u r.id < dbRank u s.id := by
  classical
  have hnd : (sortedIds u).Nodup := sortedIds_nodup h
  have hrs : r ∈ List.insertionSort dbLe u := (List.mem_insertionSort dbLe).2 hr
  have hss : s ∈ List.insertionSort dbLe u := (List.mem_insertionSort dbLe).2 hs
  have hrsid : r.id ∈ sortedIds u := List.mem_map_of_mem Row.id hrs
  have hssid : s.id ∈ sortedIds u := List.mem_map_of_mem Row.id hss
  have hi : (sortedIds u).indexOf r.id < (sortedIds u).length :=
    List.indexOf_lt_length.2 hrsid
  have hj : (sortedIds u).indexOf s.id < (sortedIds u).length :=
    List.indexOf_lt_length.2 hssid
  have hi' : (sortedIds u).indexOf r.id < (List.insertionSort dbLe u).length := by
    simpa only [length_sortedIds, List.length_insertionSort] using hi
  have hj' : (sortedIds u).indexOf s.id < (List.insertionSort dbLe u).length := by
    simpa only [length_sortedIds, List.length_insertionSort] using hj
  have hrb' : s.score < r.score ∨ (r.score = s.score ∧ r.created_at < s.created_at) := by
    simpa only [ranksBefore] using hrb
  have hgi : ((List.insertionSort dbLe u).get ⟨(sortedIds u).indexOf r.id, hi'⟩).id
      = r.id := by
    have h1 := List.indexOf_get (a := r.id) (l := sortedIds u) hi
    simpa only [sortedIds, List.get_eq_getElem, List.getElem_map] using h1
  have hgj : ((List.insertionSort dbLe u).get ⟨(sortedIds u).indexOf s.id, hj'⟩).id
      = s.id := by
    have h1 := List.indexOf_get (a := s.id) (l := sortedIds u) hj
    simpa only [sortedIds, List.get_eq_getElem, List.getElem_map] using h1
  have hsorted' : (List.insertionSort dbLe u).Sorted dbLe :=
    List.sorted_insertionSort dbLe u
  have hndmap : ((List.insertionSort dbLe u).map Row.id).Nodup := hnd
  have hir : (List.insertionSort dbLe u).get ⟨(sortedIds u).indexOf r.id, hi'⟩ = r :=
    List.inj_on_of_nodup_map hndmap (List.get_mem _ _ _) hrs hgi
  have hjs : (List.insertionSort dbLe u).get ⟨(sortedIds u).indexOf s.id, hj'⟩ = s :=
    List.inj_on_of_nodup_map hndmap (List.get_mem _ _ _) hss hgj
  have hij : (sortedIds u).indexOf r.id < (sortedIds u).indexOf s.id := by
    rcases Nat.lt_trichotomy ((sortedIds u).indexOf r.id) ((sortedIds u).indexOf s.id)
      with hlt | heq | hgt
    · exact hlt
    · exfalso
      have hreq : r = s :=
        List.inj_on_of_nodup_map h hr hs ((List.indexOf_inj hrsid hssid).1 heq)
      subst hreq
      rcases hrb' with h1 | ⟨h1, h2⟩ <;> omega
    · exfalso
      have hle := hsorted'.rel_get_of_lt
        (a := ⟨(sortedIds u).indexOf s.id, hj'⟩)
        (b := ⟨(sortedIds u).indexOf r.id, hi'⟩) (Fin.mk_lt_mk.2 hgt)
      rw [hir, hjs] at hle
      have hle' : r.score < s.score ∨ (s.score = r.score ∧ s.created_at ≤ r.created_at) := by
        simpa only [dbLe] using hle
      rcases hrb' with h1 | ⟨h1, h2⟩ <;> rcases hle' with h3 | ⟨h3, h4⟩ <;> omega
  simp only [dbRank]
  omega

theorem sorted_perm_eq_of_nodup_scores : ∀ {l₁ l₂ : List Row}, l₁.Perm l₂ →
    l₁.Pairwise clientLe → l₂.Pairwise clientLe → (l₁.map Row.score).Nodup →
    l₁ = l₂ := by
  intro l₁
  induction l₁ with
  | nil =>
    intro l₂ hp _ _ _
    exact (List.Perm.eq_nil hp.symm).symm
  | cons a t₁ ih =>
    intro l₂ hp hs₁ hs₂ hn
    cases l₂ with
    | nil => exact absurd hp.symm (by simp)
    | cons b t₂ =>
      have ham : a ∈ b :: t₂ := hp.subset (List.mem_cons_self a t₁)
      have hbm : b ∈ a :: t₁ := hp.symm.subset (List.mem_cons_self b t₂)
      have hab : a = b := by
        by_contra hne
        have hat₂ : a ∈ t₂ := by
          rcases List.mem_cons.1 ham with h1 | h1
          · exact absurd h1 hne
          · exact h1
        have hbt₁ : b ∈ t₁ := by
          rcases List.mem_cons.1 hbm with h1 | h1
          · exact absurd h1.symm hne
          · exact h1
        have h1 : clientLe b a := List.rel_of_pairwise_cons hs₂ hat₂
        have h2 : clientLe a b := List.rel_of_pairwise_cons hs₁ hbt₁
        have hsc : a.score = b.score := by
          simp only [clientLe] at h1 h2; omega
        have hmem : a.score ∈ t₁.map Row.score := by
          rw [hsc]
          exact List.mem_map_of_mem Row.score hbt₁
        have hncons : a.score ∉ t₁.map Row.score ∧ (t₁.map Row.score).Nodup := by
          simpa only [List.map_cons, List.nodup_cons] using hn
        exact hncons.1 hmem
      subst hab
      have hn' : (t₁.map Row.score).Nodup := by
        have h1 : a.score ∉ t₁.map Row.score ∧ (t₁.map Row.score).Nodup := by
          simpa only [List.map_cons, List.nodup_cons] using hn
        exact h1.2
      have ht : t₁ = t₂ :=
        ih hp.cons_inv (List.pairwise_cons.1 hs₁).2 (List.pairwise_cons.1 hs₂).2 hn'
      rw [ht]

theorem rerank_consistent {u : Table} (h : (u.map Row.id).Nodup) :
    ranksConsistent (update_leaderboard_ranks u) := by
  constructor
  · rw [length_update_leaderboard_ranks]
    exact rerank_ranks_perm h
  · intro r' hr' s' hs' hrb
    rcases List.mem_map.1 hr' with ⟨r, hr, rfl⟩
    rcases List.mem_map.1 hs' with ⟨s, hs, rfl⟩
    have hrb' : ranksBefore r s := by
      simpa [ranksBefore] using hrb
    simpa using rerank_rank_lt h hr hs hrb'

theorem clientLe_of_dbLe {a b : Row} (h : dbLe a b) : clientLe a b := by
  simp only [dbLe, clientLe] at h ⊢; omega

theorem updateRanksSorted_eq_db {members : List Row}
    (h : (members.map Row.score).Nodup) :
    updateRanksSorted members = List.insertionSort dbLe members := by
  apply sorted_perm_eq_of_nodup_scores
  · exact (List.perm_insertionSort clientLe members).trans
      (List.perm_insertionSort dbLe members).symm
  · exact List.sorted_insertionSort clientLe members
  · exact List.Pairwise.imp (fun hab => clientLe_of_dbLe hab)
      (List.sorted_insertionSort dbLe members)
  · exact (((List.perm_insertionSort clientLe members).map Row.score).nodup_iff).2 h

/-! ### Lemmas about the client write list -/

theorem length_writesFrom (k : Nat) (l : List Row) :
    (writesFrom k l).length = l.length := by
  induction l generalizing k with
  | nil => rfl
  | cons r rs ih => simp [writesFrom, ih]

theorem getD_writesFrom (k : Nat) (l : List Row) (n : Nat) (hn : n < l.length) :
    (writesFrom k l).getD n default = ((l.getD n default).id, ((k + n : Nat) : Int) + 1) := by
  induction l generalizing k n with
  | nil => simp at hn
  | cons r rs ih =>
    cases n with
    | zero => simp [writesFrom]
    | succ m =>
      have hm : m < rs.length := by simpa using hn
      simp only [writesFrom, List.getD_cons_succ]
      rw [ih (k + 1) m hm]
      have harith : k + 1 + m = k + (m + 1) := by omega
      rw [harith]

/-! ### The trigger absorbs the client's rank writes -/

theorem sortedIds_rank_mod (t : Table) (f : Row → Int) :
    sortedIds (t.map (fun r => { r with rank := f r })) = sortedIds t := by
  unfold sortedIds
  have hmap := List.map_insertionSort dbLe dbLe (fun r => { r with rank := f r }) t
    (fun a _ b _ => Iff.rfl)
  rw [← hmap, List.map_map]
  exact List.map_congr_left (fun r _ => rfl)

theorem dbRank_rank_mod (t : Table) (f : Row → Int) (i : Nat) :
    dbRank (t.map (fun r => { r with rank := f r })) i = dbRank t i := by
  unfold dbRank
  rw [sortedIds_rank_mod]

theorem update_leaderboard_ranks_rank_mod (t : Table) (f : Row → Int) :
    update_leaderboard_ranks (t.map (fun r => { r with rank := f r }))
      = update_leaderboard_ranks t := by
  unfold update_leaderboard_ranks
  rw [List.map_map]
  apply List.map_congr_left
  intro r _
  show ({ r with rank := dbRank (t.map (fun r => { r with rank := f r })) r.id } : Row)
    = { r with rank := dbRank t r.id }
  rw [dbRank_rank_mod]

theorem applyWrite_as_rank_mod (t : Table) (w : Nat × Int) :
    applyWrite t w
      = t.map (fun r => { r with rank := if r.id = w.1 then w.2 else r.rank }) := by
  unfold applyWrite
  apply List.map_congr_left
  intro r _
  by_cases h : r.id = w.1 <;> simp [h]

theorem commitWrite_eq_rerank (t : Table) (w : Nat × Int) :
    commitWrite t w = update_leaderboard_ranks t := by
  unfold commitWrite
  rw [applyWrite_as_rank_mod, update_leaderboard_ranks_rank_mod]

theorem update_leaderboard_ranks_idem (t : Table) :
    update_leaderboard_ranks (update_leaderboard_ranks t) = update_leaderboard_ranks t :=
  update_leaderboard_ranks_rank_mod t (fun r => dbRank t r.id)

theorem foldl_commitWrite_ne_nil : ∀ (ws : List (Nat × Int)) (t : Table), ws ≠ [] →
    ws.foldl commitWrite t = update_leaderboard_ranks t := by
  intro ws
  induction ws with
  | nil => intro t h; exact absurd rfl h
  | cons w rest ih =>
    intro t _
    have hstep : (w :: rest).foldl commitWrite t
        = rest.foldl commitWrite (commitWrite t w) := rfl
    rw [hstep]
    cases rest with
    | nil => exact commitWrite_eq_rerank t w
    | cons w2 rest2 =>
      rw [ih (commitWrite t w) (List.cons_ne_nil w2 rest2)]
      rw [commitWrite_eq_rerank, update_leaderboard_ranks_idem]

theorem updateRanksWrites_ne_nil {members : List Row} (h : members ≠ []) :
    updateRanksWrites members ≠ [] := by
  intro he
  have h1 : (updateRanksWrites members).length = members.length := by
    simp only [updateRanksWrites, updateRanksSorted, length_writesFrom,
      List.length_insertionSort]
  rw [he] at h1
  simp only [List.length_nil] at h1
  exact h (List.length_eq_zero.1 h1.symm)

/-! ### Preservation lemmas for the add path -/

theorem map_id_applyWrite (t : Table) (w : Nat × Int) :
    (applyWrite t w).map Row.id = t.map Row.id := by
  simp only [applyWrite, List.map_map]
  apply List.map_congr_left
  intro r _
  by_cases hid : r.id = w.1 <;> simp [Function.comp_def, hid]

theorem map_id_commitWrite (t : Table) (w : Nat × Int) :
    (commitWrite t w).map Row.id = t.map Row.id := by
  rw [commitWrite, map_id_update_leaderboard_ranks, map_id_applyWrite]

theorem foldl_commitWrite_consistent : ∀ (ws : List (Nat × Int)) (t : Table),
    (t.map Row.id).Nodup → ranksConsistent t →
    ranksConsistent (ws.foldl commitWrite t) ∧
      (ws.foldl commitWrite t).map Row.id = t.map Row.id := by
  intro ws
  induction ws with
  | nil => intro t _ hc; exact ⟨hc, rfl⟩
  | cons w ws ih =>
    intro t hnd hc
    have hnd' : ((commitWrite t w).map Row.id).Nodup := by
      rw [map_id_commitWrite]; exact hnd
    have hc' : ranksConsistent (commitWrite t w) := by
      rw [commitWrite]
      apply rerank_consistent
      rw [map_id_applyWrite]; exact hnd
    have hfold : (w :: ws).foldl commitWrite t = ws.foldl commitWrite (commitWrite t w) := rfl
    rw [hfold]
    rcases ih (commitWrite t w) hnd' hc' with ⟨h1, h2⟩
    exact ⟨h1, h2.trans (map_id_commitWrite t w)⟩

/-! ### Lemmas about display-rank assignment -/

theorem length_assignDisplayRanks (i : Nat) (l : List Row) :
    (assignDisplayRanks i l).length = l.length := by
  induction l generalizing i with
  | nil => rfl
  | cons r rs ih => simp [assignDisplayRanks, ih]

theorem map_score_assignDisplayRanks (i : Nat) (l : List Row) :
    (assignDisplayRanks i l).map Row.score = l.map Row.score := by
  induction l generalizing i with
  | nil => rfl
  | cons r rs ih => simp [assignDisplayRanks, ih]

theorem map_id_assignDisplayRanks (i : Nat) (l : List Row) :
    (assignDisplayRanks i l).map Row.id = l.map Row.id := by
  induction l generalizing i with
  | nil => rfl
  | cons r rs ih => simp [assignDisplayRanks, ih]

theorem getD_assignDisplayRanks (i : Nat) (l : List Row) (n : Nat) (hn : n < l.length) :
    (assignDisplayRanks i l).getD n default =
      { l.getD n default with rank := ((i + n : Nat) : Int) + 1 } := by
  induction l generalizing i n with
  | nil => simp at hn
  | cons r rs ih =>
    cases n with
    | zero => simp [assignDisplayRanks]
    | succ m =>
      have hm : m < rs.length := by simpa using hn
      simp only [assignDisplayRanks, List.getD_cons_succ]
      rw [ih (i + 1) m hm]
      have harith : i + 1 + m = i + (m + 1) := by omega
      rw [harith]

theorem assignDisplayRanks_rank_irrelevant (i : Nat) (l : List Row) (g : Row → Int) :
    assignDisplayRanks i (l.map (fun r => { r with rank := g r }))
      = assignDisplayRanks i l := by
  induction l generalizing i with
  | nil => rfl
  | cons r rs ih => simp [assignDisplayRanks, ih]

/-! ### The `.single()` admin query characterization -/

theorem nodup_all_eq_length_le_one {α : Type} {l : List α} {c : α}
    (hnd : l.Nodup) (hall : ∀ x ∈ l, x = c) : l.length ≤ 1 := by
  match l with
  | [] => simp
  | [a] => simp
  | a :: b :: rest =>
    exfalso
    have ha := hall a (by simp)
    have hb := hall b (by simp)
    have hne : a ≠ b := by
      have h1 := List.nodup_cons.1 hnd
      intro he
      exact h1.1 (he ▸ List.mem_cons_self b rest)
    exact hne (ha.trans hb.symm)

theorem adminRoleQuery_ok_iff {roles : List RoleRow} {uid : Nat}
    (hU : (roles.map (fun r => (r.user_id, r.role))).Nodup) :
    (∃ ro, adminRoleQuery roles uid false = .ok ro) ↔
      ∃ rr ∈ roles, rr.user_id = uid ∧ rr.role = "admin" := by
  constructor
  · rintro ⟨ro, hok⟩
    unfold adminRoleQuery at hok
    simp only [Bool.false_eq_true, if_false] at hok
    rcases hfil : roles.filter (fun r => decide (r.user_id = uid ∧ r.role = "admin"))
      with _ | ⟨r, _ | ⟨r2, rest⟩⟩
    · rw [hfil] at hok; exact absurd hok (by simp)
    · have hrmem : r ∈ roles.filter (fun r => decide (r.user_id = uid ∧ r.role = "admin")) := by
        rw [hfil]; exact List.mem_cons_self r []
      have h1 := List.mem_filter.1 hrmem
      refine ⟨r, h1.1, ?_⟩
      simpa using h1.2
    · rw [hfil] at hok; exact absurd hok (by simp)
  · rintro ⟨rr, hmem, huid, hrole⟩
    have hrrfil : rr ∈ roles.filter (fun r => decide (r.user_id = uid ∧ r.role = "admin")) :=
      List.mem_filter.2 ⟨hmem, by simp [huid, hrole]⟩
    have hsub : List.Sublist
        ((roles.filter (fun r => decide (r.user_id = uid ∧ r.role = "admin"))).map
          (fun r => (r.user_id, r.role)))
        (roles.map (fun r => (r.user_id, r.role))) :=
      (List.filter_sublist roles).map _
    have hndfil : ((roles.filter (fun r => decide (r.user_id = uid ∧ r.role = "admin"))).map
        (fun r => (r.user_id, r.role))).Nodup := hU.sublist hsub
    have hall : ∀ x ∈ (roles.filter (fun r => decide (r.user_id = uid ∧ r.role = "admin"))).map
        (fun r => (r.user_id, r.role)), x = (uid, "admin") := by
      intro x hx
      rcases List.mem_map.1 hx with ⟨r, hrmem, rfl⟩
      have h1 := (List.mem_filter.1 hrmem).2
      simp only [decide_eq_true_eq] at h1
      rw [h1.1, h1.2]
    have hlen : (roles.filter (fun r => decide (r.user_id = uid ∧ r.role = "admin"))).length ≤ 1 := by
      have := nodup_all_eq_length_le_one hndfil hall
      simpa using this
    have hlen1 : (roles.filter (fun r => decide (r.user_id = uid ∧ r.role = "admin"))).length = 1 := by
      have hpos : 0 < (roles.filter (fun r => decide (r.user_id = uid ∧ r.role = "admin"))).length :=
        List.length_pos.2 (List.ne_nil_of_mem hrrfil)
      omega
    rcases List.length_eq_one.1 hlen1 with ⟨a, ha⟩
    refine ⟨a.role, ?_⟩
    unfold adminRoleQuery
    simp only [Bool.false_eq_true, if_false, ha]

/-! ### Claim theorems -/

/-- C1: after any committed insert, update, or delete statement on
`leaderboard_members` (under the primary-key property that the statement
leaves row ids distinct), the rank-recompute trigger leaves the rank values
forming a contiguous sequence 1..N, as a multiset, that matches the ordering
by score descending with ties broken by earliest creation time. -/
theorem C1_rank_invariant_after_commit (s : Stmt) (t : Table)
    (h : ((execStmt s t).map Row.id).Nodup) :
    ranksConsistent (commitStmt s t) :=
  rerank_consistent h

/-- C1 witness: a concrete insert into a two-row table. -/
theorem C1_rank_invariant_after_commit_witness :
    ((execStmt (.insert ⟨4, "d", 7, none, 20, 99⟩)
        [⟨1, "a", 5, none, 10, 1⟩, ⟨2, "b", 9, none, 3, 2⟩]).map Row.id).Nodup ∧
    ranksConsistent (commitStmt (.insert ⟨4, "d", 7, none, 20, 99⟩)
        [⟨1, "a", 5, none, 10, 1⟩, ⟨2, "b", 9, none, 3, 2⟩]) :=
  ⟨by decide, C1_rank_invariant_after_commit _ _ (by decide)⟩

/-- C4: an add attempt whose score input does not parse as a number (JS
`parseInt` yields `NaN`) takes the invalid-score path: a user-visible error
outcome, no insert issued, and the leaderboard_members table unchanged. -/
theorem C4_nonnumeric_add_rejected (nm scoreStr avatar : String)
    (members : List Row) (t : Table) (newId ts : Nat)
    (h : parseIntJS scoreStr = none) :
    handleAddMember nm scoreStr avatar members t newId ts = (.invalidScore, t) := by
  simp [handleAddMember, h]

/-- C4 witness: the non-numeric score input "abc" on a one-row table. -/
theorem C4_nonnumeric_add_rejected_witness :
    parseIntJS "abc" = none ∧
    handleAddMember "Zoe" "abc" "" [⟨1, "a", 5, none, 10, 1⟩]
        [⟨1, "a", 5, none, 10, 1⟩] 2 20
      = (.invalidScore, [⟨1, "a", 5, none, 10, 1⟩]) :=
  ⟨by decide, C4_nonnumeric_add_rejected _ _ _ _ _ _ _ (by decide)⟩

/-- C6: on load the leaderboard view fetches members ordered by score
descending and displays each member with rank equal to its 1-indexed array
position in the fetched order, independent of the stored rank column (any
rewrite of stored ranks leaves the displayed list unchanged). -/
theorem C6_display_rank_is_position (t : Table) (l : List Row)
    (hf : IsFetchResult t l) :
    l.Pairwise clientLe ∧
    (∀ n, n < l.length →
      (fetchLeaderboard l).getD n default
        = { l.getD n default with rank := ((n : Nat) : Int) + 1 }) ∧
    (∀ g : Row → Int,
      fetchLeaderboard (l.map (fun r => { r with rank := g r }))
        = fetchLeaderboard l) := by
  refine ⟨hf.2, ?_, ?_⟩
  · intro n hn
    have h1 := getD_assignDisplayRanks 0 l n hn
    simpa [fetchLeaderboard] using h1
  · intro g
    exact assignDisplayRanks_rank_irrelevant 0 l g

/-- C6 witness: a concrete one-row fetch with a stale stored rank 99. -/
theorem C6_display_rank_is_position_witness :
    IsFetchResult [⟨1, "a", 5, none, 1, 99⟩] [⟨1, "a", 5, none, 1, 99⟩] ∧
    (fetchLeaderboard [⟨1, "a", 5, none, 1, 99⟩]).getD 0 default
      = { (([⟨1, "a", 5, none, 1, 99⟩] : List Row).getD 0 default) with
          rank := ((0 : Nat) : Int) + 1 } :=
  ⟨by decide,
    (C6_display_rank_is_position ([⟨1, "a", 5, none, 1, 99⟩] : Table)
      ([⟨1, "a", 5, none, 1, 99⟩] : List Row) (by decide)).2.1 0 (by decide)⟩

/-- C7: both components' admin checks agree, and they report admin exactly
when the current session has a user whose user_roles row with role admin
exists and the query transport did not fail; a missing row or a query error
yields the same non-admin outcome (fails closed). -/
theorem C7_admin_check_fails_closed (user : Option Nat) (roles : List RoleRow)
    (netFail : Bool)
    (hU : (roles.map (fun r => (r.user_id, r.role))).Nodup) :
    (checkAdminStatusLeaderboard user roles netFail
       = checkAdminStatusAdminPage user roles netFail) ∧
    (checkAdminStatusLeaderboard user roles netFail = true ↔
       ∃ uid, user = some uid ∧ netFail = false ∧
         ∃ rr ∈ roles, rr.user_id = uid ∧ rr.role = "admin") := by
  constructor
  · cases user with
    | none => rfl
    | some uid =>
      simp only [checkAdminStatusLeaderboard, checkAdminStatusAdminPage]
      cases adminRoleQuery roles uid netFail <;> rfl
  · cases user with
    | none =>
      simp [checkAdminStatusLeaderboard]
    | some uid =>
      cases netFail with
      | true =>
        simp only [checkAdminStatusLeaderboard, adminRoleQuery, if_pos]
        simp
      | false =>
        simp only [checkAdminStatusLeaderboard]
        constructor
        · intro htrue
          rcases hq : adminRoleQuery roles uid false with ro | _ | _ <;>
            rw [hq] at htrue
          · exact ⟨uid, rfl, by trivial, (adminRoleQuery_ok_iff hU).1 ⟨_, hq⟩⟩
          · exact absurd htrue (by simp)
          · exact absurd htrue (by simp)
        · rintro ⟨uid', huid', hnf, hexists⟩
          have huideq : uid' = uid := by
            injection huid' with h1
            exact h1.symm
          subst huideq
          rcases (adminRoleQuery_ok_iff hU).2 hexists with ⟨ro, hok⟩
          rw [hok]

/-- C7 witness: an admin user, over a one-row user_roles table. -/
theorem C7_admin_check_fails_closed_witness :
    ((([⟨7, 42, "admin"⟩] : List RoleRow)).map (fun r => (r.user_id, r.role))).Nodup ∧
    checkAdminStatusLeaderboard (some 42) [⟨7, 42, "admin"⟩] false
      = checkAdminStatusAdminPage (some 42) [⟨7, 42, "admin"⟩] false :=
  ⟨by decide, (C7_admin_check_fails_closed (some 42) [⟨7, 42, "admin"⟩] false
    (by decide)).1⟩

/-- C9: a signup of a fresh identity creates, in the one signup transaction
(the trigger runs inside it, modelled as a single step), exactly one profiles
row for that identity and exactly one user_roles row for it, that row bearing
role user. -/
theorem C9_signup_creates_profile_and_role (st : DBState) (u : AuthUser)
    (rid : Nat)
    (hp : st.profiles.filter (fun p => p.id = u.id) = [])
    (hr : st.user_roles.filter (fun r => r.user_id = u.id) = []) :
    ((signupNewUser st u rid).profiles.filter (fun p => p.id = u.id)).length = 1 ∧
    ((signupNewUser st u rid).user_roles.filter
        (fun r => r.user_id = u.id ∧ r.role = "user")).length = 1 ∧
    ((signupNewUser st u rid).user_roles.filter
        (fun r => r.user_id = u.id)).length = 1 := by
  have hr' : ∀ r ∈ st.user_roles, ¬ (r.user_id = u.id) := by
    intro r hrm hre
    have h1 : r ∈ st.user_roles.filter (fun r => r.user_id = u.id) :=
      List.mem_filter.2 ⟨hrm, by simp [hre]⟩
    rw [hr] at h1
    exact absurd h1 (List.not_mem_nil r)
  have hfr2 : st.user_roles.filter
      (fun r => decide (r.user_id = u.id ∧ r.role = "user")) = [] := by
    apply List.eq_nil_iff_forall_not_mem.2
    intro x hx
    have h1 := List.mem_filter.1 hx
    have h2 : x.user_id = u.id := by
      have h3 := h1.2
      simp only [decide_eq_true_eq] at h3
      exact h3.1
    exact hr' x h1.1 h2
  refine ⟨?_, ?_, ?_⟩
  · simp [signupNewUser, handle_new_user, List.filter_append, hp]
  · simp only [signupNewUser, handle_new_user, List.filter_append, hfr2,
      List.nil_append, List.filter_cons, List.filter_nil]
    simp
  · simp [signupNewUser, handle_new_user, List.filter_append, hr]

/-- C9 witness: signing up user 5 over an empty database. -/
theorem C9_signup_creates_profile_and_role_witness :
    ((signupNewUser (DBState.mk [] [] []) (AuthUser.mk 5 "e@x" none) 9).profiles.filter
        (fun p => p.id = (AuthUser.mk 5 "e@x" none).id)).length = 1 ∧
    ((signupNewUser (DBState.mk [] [] []) (AuthUser.mk 5 "e@x" none) 9).user_roles.filter
        (fun r => r.user_id = (AuthUser.mk 5 "e@x" none).id ∧ r.role = "user")).length = 1 :=
  ⟨(C9_signup_creates_profile_and_role (DBState.mk [] [] []) (AuthUser.mk 5 "e@x" none) 9
      rfl rfl).1,
    (C9_signup_creates_profile_and_role (DBState.mk [] [] []) (AuthUser.mk 5 "e@x" none) 9
      rfl rfl).2.1⟩

/-- C10: in the edit path a score input that does not parse is not rejected:
the draft score silently becomes 0 (`parseInt(value) || 0`), identical to an
input parsing to 0, and saving writes that 0 to the member's row (every row
of the saved table carrying the edited id has score 0). -/
theorem C10_edit_nonnumeric_coerced_to_zero (s : String)
    (h : parseIntJS s = none) :
    editScoreOnChange s = 0 ∧
    editScoreOnChange s = editScoreOnChange "0" ∧
    (∀ (i : Nat) (nm av : String) (t : Table),
      ∀ r ∈ handleSaveEdit ⟨i, nm, editScoreOnChange s, av⟩ t,
        r.id = i → r.score = 0) ∧
    (∀ (i : Nat) (nm av : String) (t : Table),
      handleSaveEdit ⟨i, nm, editScoreOnChange s, av⟩ t
        = handleSaveEdit ⟨i, nm, editScoreOnChange "0", av⟩ t) := by
  have h0 : editScoreOnChange s = 0 := by simp [editScoreOnChange, h]
  have hz : editScoreOnChange "0" = 0 := by decide
  refine ⟨h0, h0.trans hz.symm, ?_, ?_⟩
  · intro i nm av t r hrmem hrid
    rcases List.mem_map.1 hrmem with ⟨r₀, hr₀, hr₀eq⟩
    by_cases hcase : r₀.id = i
    · rw [← hr₀eq]
      simp [hcase, h0]
    · rw [← hr₀eq] at hrid ⊢
      simp only [if_neg hcase] at hrid ⊢
      exact absurd hrid hcase
  · intro i nm av t
    rw [h0, hz]

/-- C10 witness: the non-numeric input "xyz" saved over a one-row table. -/
theorem C10_edit_nonnumeric_coerced_to_zero_witness :
    parseIntJS "xyz" = none ∧
    (∀ r ∈ handleSaveEdit ⟨1, "a", editScoreOnChange "xyz", ""⟩
        [⟨1, "a", 5, none, 10, 1⟩], r.id = 1 → r.score = 0) :=
  ⟨by decide,
    (C10_edit_nonnumeric_coerced_to_zero "xyz" (by decide)).2.2.1 1 "a" ""
      [⟨1, "a", 5, none, 10, 1⟩]⟩

/-- C2 counterexample: two members tied at score 5, loaded in an order
opposite to creation order. The claim as stated fails: the rank writes the
client loop issues differ from the writes matching the database trigger's
ordering (score descending, ties by earliest creation). -/
theorem C2_counterexample :
    updateRanksWrites [⟨1, "a", 5, none, 10, 1⟩, ⟨2, "b", 5, none, 3, 2⟩]
      ≠ writesFrom 0
          (List.insertionSort dbLe [⟨1, "a", 5, none, 10, 1⟩, ⟨2, "b", 5, none, 3, 2⟩]) := by
  decide

/-- C2 amended: updateRanks stably sorts the loaded members by score
descending (ties keeping loaded order) and writes each member a rank equal to
its 1-indexed position in that order; the ordering agrees with the database
trigger's (score descending, ties by earliest creation) whenever the loaded
scores are pairwise distinct — with tied scores the client tie-break is
loaded order, not creation time. -/
theorem C2_updateRanks_writes_positions (members : List Row) :
    (updateRanksSorted members).Perm members ∧
    (updateRanksSorted members).Pairwise clientLe ∧
    (∀ n, n < members.length →
      (updateRanksWrites members).getD n default
        = (((updateRanksSorted members).getD n default).id, ((n : Nat) : Int) + 1)) ∧
    ((members.map Row.score).Nodup →
      updateRanksSorted members = List.insertionSort dbLe members) := by
  refine ⟨List.perm_insertionSort clientLe members,
    List.sorted_insertionSort clientLe members, ?_, ?_⟩
  · intro n hn
    have hn' : n < (updateRanksSorted members).length := by
      simpa [updateRanksSorted, List.length_insertionSort] using hn
    have h1 := getD_writesFrom 0 (updateRanksSorted members) n hn'
    simpa [updateRanksWrites] using h1
  · exact fun h => updateRanksSorted_eq_db h

/-- C2 amended witness: two members with distinct scores 5 and 9. -/
theorem C2_updateRanks_writes_positions_witness :
    (0 < ([⟨1, "a", 5, none, 10, 1⟩, ⟨2, "b", 9, none, 3, 2⟩] : List Row).length) ∧
    (updateRanksWrites [⟨1, "a", 5, none, 10, 1⟩, ⟨2, "b", 9, none, 3, 2⟩]).getD 0 default
      = (((updateRanksSorted [⟨1, "a", 5, none, 10, 1⟩, ⟨2, "b", 9, none, 3, 2⟩]).getD
            0 default).id, ((0 : Nat) : Int) + 1) ∧
    updateRanksSorted [⟨1, "a", 5, none, 10, 1⟩, ⟨2, "b", 9, none, 3, 2⟩]
      = List.insertionSort dbLe [⟨1, "a", 5, none, 10, 1⟩, ⟨2, "b", 9, none, 3, 2⟩] :=
  ⟨by decide,
    (C2_updateRanks_writes_positions
      [⟨1, "a", 5, none, 10, 1⟩, ⟨2, "b", 9, none, 3, 2⟩]).2.2.1 0 (by decide),
    (C2_updateRanks_writes_positions
      [⟨1, "a", 5, none, 10, 1⟩, ⟨2, "b", 9, none, 3, 2⟩]).2.2.2 (by decide)⟩

/-- C3: an add whose score field parses as an integer inserts a row carrying
the placeholder rank members.length + 1 and then triggers a full rank
recomputation covering every row of the resulting table, the newly inserted
one included: afterwards the ranks are the recomputed contiguous 1..N in the
trigger's order. (The client loop rewrites only previously loaded rows; the
statement-level trigger, firing on the insert and on each rewrite, re-ranks
all rows.) -/
theorem C3_add_placeholder_then_full_recompute
    (nm scoreStr avatar : String) (members : List Row) (t : Table)
    (newId ts : Nat) (n : Int)
    (hparse : parseIntJS scoreStr = some n)
    (hnd : (t.map Row.id).Nodup) (hfresh : newId ∉ t.map Row.id) :
    (newRowOf nm n avatar members newId ts).rank = (members.length : Int) + 1 ∧
    (handleAddMember nm scoreStr avatar members t newId ts).1 = .success ∧
    ranksConsistent (handleAddMember nm scoreStr avatar members t newId ts).2 ∧
    newId ∈ (handleAddMember nm scoreStr avatar members t newId ts).2.map Row.id ∧
    (handleAddMember nm scoreStr avatar members t newId ts).2.length = t.length + 1 := by
  have hh : handleAddMember nm scoreStr avatar members t newId ts
      = (.success, runUpdateRanksDB members
          (commitStmt (.insert (newRowOf nm n avatar members newId ts)) t)) := by
    simp [handleAddMember, hparse]
  have hexecids : (execStmt (.insert (newRowOf nm n avatar members newId ts)) t).map Row.id
      = t.map Row.id ++ [newId] := by
    simp [execStmt, newRowOf]
  have hids0 : (commitStmt (.insert (newRowOf nm n avatar members newId ts)) t).map Row.id
      = t.map Row.id ++ [newId] := by
    rw [commitStmt, map_id_update_leaderboard_ranks, hexecids]
  have hndapp : (t.map Row.id ++ [newId]).Nodup := by
    simp [List.nodup_append, hnd, hfresh]
  have hnd0 : ((commitStmt (.insert (newRowOf nm n avatar members newId ts)) t).map
      Row.id).Nodup := by
    rw [hids0]; exact hndapp
  have hc0 : ranksConsistent (commitStmt (.insert (newRowOf nm n avatar members newId ts)) t) := by
    rw [commitStmt]
    apply rerank_consistent
    rw [hexecids]; exact hndapp
  rcases foldl_commitWrite_consistent (updateRanksWrites members)
      (commitStmt (.insert (newRowOf nm n avatar members newId ts)) t) hnd0 hc0
    with ⟨hcfin, hidsfin⟩
  have hidsfin' : (handleAddMember nm scoreStr avatar members t newId ts).2.map Row.id
      = t.map Row.id ++ [newId] := by
    rw [hh]
    exact (hidsfin.trans hids0)
  refine ⟨rfl, ?_, ?_, ?_, ?_⟩
  · rw [hh]
  · rw [hh]; exact hcfin
  · rw [hidsfin']
    simp
  · have hlen : (handleAddMember nm scoreStr avatar members t newId ts).2.length
        = ((handleAddMember nm scoreStr avatar members t newId ts).2.map Row.id).length := by
      simp
    rw [hlen, hidsfin']
    simp

/-- C3 witness: adding score "7" with fresh id 2 over a one-row table. -/
theorem C3_add_placeholder_then_full_recompute_witness :
    parseIntJS "7" = some 7 ∧
    ranksConsistent (handleAddMember "Zoe" "7" "" [⟨1, "a", 5, none, 10, 1⟩]
        [⟨1, "a", 5, none, 10, 1⟩] 2 20).2 ∧
    2 ∈ (handleAddMember "Zoe" "7" "" [⟨1, "a", 5, none, 10, 1⟩]
        [⟨1, "a", 5, none, 10, 1⟩] 2 20).2.map Row.id :=
  ⟨by decide,
    (C3_add_placeholder_then_full_recompute "Zoe" "7" "" [⟨1, "a", 5, none, 10, 1⟩]
      [⟨1, "a", 5, none, 10, 1⟩] 2 20 7 (by decide) (by decide) (by decide)).2.2.1,
    (C3_add_placeholder_then_full_recompute "Zoe" "7" "" [⟨1, "a", 5, none, 10, 1⟩]
      [⟨1, "a", 5, none, 10, 1⟩] 2 20 7 (by decide) (by decide) (by decide)).2.2.2.1⟩

/-- C5 counterexample: two rows tied at score 5 with creation times 10 and 3;
the list in that order is a legitimate fetch result (sorted by score
descending — the query requests no secondary ordering), yet the combined
podium-plus-remainder sequence has its tied scores in creation-descending
order, so the claimed creation-time tie ordering fails. -/
theorem C5_counterexample :
    IsFetchResult ([⟨1, "a", 5, none, 10, 1⟩, ⟨2, "b", 5, none, 3, 2⟩] : Table)
        [⟨1, "a", 5, none, 10, 1⟩, ⟨2, "b", 5, none, 3, 2⟩] ∧
    ¬ tiesCreatedAsc
        (topThree (fetchLeaderboard [⟨1, "a", 5, none, 10, 1⟩, ⟨2, "b", 5, none, 3, 2⟩])
          ++ remainingRows
              (fetchLeaderboard [⟨1, "a", 5, none, 10, 1⟩, ⟨2, "b", 5, none, 3, 2⟩])) := by
  decide

/-- C5 amended: for every fetched member list, the podium (top 3) and the
remainder together are exactly the full fetched set — no duplicates under
distinct ids, covering exactly the table's members — ordered by score
descending; the relative order of tied scores is the fetch's unspecified
order, not necessarily creation-time ascending. -/
theorem C5_podium_partition (t : Table) (l : List Row)
    (hf : IsFetchResult t l) (hnd : (t.map Row.id).Nodup) :
    topThree (fetchLeaderboard l) ++ remainingRows (fetchLeaderboard l)
        = fetchLeaderboard l ∧
    ((fetchLeaderboard l).map Row.id).Perm (t.map Row.id) ∧
    ((fetchLeaderboard l).map Row.id).Nodup ∧
    (fetchLeaderboard l).Pairwise clientLe := by
  have hmapid : (fetchLeaderboard l).map Row.id = l.map Row.id :=
    map_id_assignDisplayRanks 0 l
  have hperm : ((fetchLeaderboard l).map Row.id).Perm (t.map Row.id) := by
    rw [hmapid]; exact hf.1.map Row.id
  refine ⟨List.take_append_drop 3 (fetchLeaderboard l), hperm, ?_, ?_⟩
  · exact (hperm.nodup_iff).2 hnd
  · have hs : ((fetchLeaderboard l).map Row.score).Pairwise (fun x y => y ≤ x) := by
      rw [fetchLeaderboard, map_score_assignDisplayRanks]
      exact (List.pairwise_map).2 hf.2
    have h2 : (fetchLeaderboard l).Pairwise (fun a b => b.score ≤ a.score) :=
      (List.pairwise_map).1 hs
    exact h2

/-- C5 amended witness: a concrete two-row fetch with distinct scores. -/
theorem C5_podium_partition_witness :
    IsFetchResult ([⟨1, "a", 9, none, 10, 1⟩, ⟨2, "b", 5, none, 3, 2⟩] : Table)
        [⟨1, "a", 9, none, 10, 1⟩, ⟨2, "b", 5, none, 3, 2⟩] ∧
    topThree (fetchLeaderboard [⟨1, "a", 9, none, 10, 1⟩, ⟨2, "b", 5, none, 3, 2⟩])
        ++ remainingRows (fetchLeaderboard [⟨1, "a", 9, none, 10, 1⟩, ⟨2, "b", 5, none, 3, 2⟩])
      = fetchLeaderboard [⟨1, "a", 9, none, 10, 1⟩, ⟨2, "b", 5, none, 3, 2⟩] ∧
    ((fetchLeaderboard [⟨1, "a", 9, none, 10, 1⟩, ⟨2, "b", 5, none, 3, 2⟩]).map Row.id).Nodup :=
  ⟨by decide,
    (C5_podium_partition ([⟨1, "a", 9, none, 10, 1⟩, ⟨2, "b", 5, none, 3, 2⟩] : Table)
      [⟨1, "a", 9, none, 10, 1⟩, ⟨2, "b", 5, none, 3, 2⟩] (by decide) (by decide)).1,
    (C5_podium_partition ([⟨1, "a", 9, none, 10, 1⟩, ⟨2, "b", 5, none, 3, 2⟩] : Table)
      [⟨1, "a", 9, none, 10, 1⟩, ⟨2, "b", 5, none, 3, 2⟩] (by decide) (by decide)).2.2.1⟩

/-- C8 counterexample: the claim as stated fails against the program. The
statement-level rank-recompute trigger fires on each committed write of the
loop, so failing after the first of two rank writes leaves the table already
equal to the fully re-ranked state — not in a state that is neither the
pre-loop state nor the fully re-ranked one. -/
theorem C8_counterexample :
    ¬ (updateRanksFailedAt [⟨1, "a", 10, none, 1, 1⟩, ⟨2, "b", 5, none, 2, 2⟩]
          [⟨1, "a", 10, none, 1, 5⟩, ⟨2, "b", 5, none, 2, 7⟩] 1
        ≠ [⟨1, "a", 10, none, 1, 5⟩, ⟨2, "b", 5, none, 2, 7⟩] ∧
       updateRanksFailedAt [⟨1, "a", 10, none, 1, 1⟩, ⟨2, "b", 5, none, 2, 2⟩]
          [⟨1, "a", 10, none, 1, 5⟩, ⟨2, "b", 5, none, 2, 7⟩] 1
        ≠ runUpdateRanksDB [⟨1, "a", 10, none, 1, 1⟩, ⟨2, "b", 5, none, 2, 2⟩]
            [⟨1, "a", 10, none, 1, 5⟩, ⟨2, "b", 5, none, 2, 7⟩]) := by
  decide

/-- C8 amended: if the k-th update of the client rank-rewrite loop fails, the
k-1 updates already committed stay committed — each was a separate
transaction, the catch only logs, and no compensating writes are issued — but
each committed update fired the statement-level rank-recompute trigger, which
overwrites every client-written rank from the scores alone. So the table is
left in the pre-loop state when the failure precedes any commit, and
otherwise exactly in the fully re-ranked (trigger-recomputed) state: the
missing atomicity never yields an intermediate state. -/
theorem C8_partial_failure_no_rollback (members : List Row) (t : Table) (j : Nat) :
    updateRanksFailedAt members t 0 = t ∧
    (1 ≤ j → members ≠ [] →
      updateRanksFailedAt members t j = update_leaderboard_ranks t ∧
      runUpdateRanksDB members t = update_leaderboard_ranks t ∧
      updateRanksFailedAt members t j = runUpdateRanksDB members t) := by
  constructor
  · rfl
  · intro hj hm
    have hws : updateRanksWrites members ≠ [] := updateRanksWrites_ne_nil hm
    have htake : (updateRanksWrites members).take j ≠ [] := by
      rcases List.exists_cons_of_ne_nil hws with ⟨w, rest, hwr⟩
      cases j with
      | zero => omega
      | succ k =>
        rw [hwr, List.take_succ_cons]
        exact List.cons_ne_nil _ _
    have h1 : updateRanksFailedAt members t j = update_leaderboard_ranks t :=
      foldl_commitWrite_ne_nil _ t htake
    have h2 : runUpdateRanksDB members t = update_leaderboard_ranks t :=
      foldl_commitWrite_ne_nil _ t hws
    exact ⟨h1, h2, h1.trans h2.symm⟩

/-- C8 amended witness: failing after the first of two writes over a table
with stale stored ranks leaves exactly the fully re-ranked table. -/
theorem C8_partial_failure_no_rollback_witness :
    updateRanksFailedAt [⟨1, "a", 10, none, 1, 1⟩, ⟨2, "b", 5, none, 2, 2⟩]
        [⟨1, "a", 10, none, 1, 5⟩, ⟨2, "b", 5, none, 2, 7⟩] 1
      = runUpdateRanksDB [⟨1, "a", 10, none, 1, 1⟩, ⟨2, "b", 5, none, 2, 2⟩]
          [⟨1, "a", 10, none, 1, 5⟩, ⟨2, "b", 5, none, 2, 7⟩] :=
  ((C8_partial_failure_no_rollback [⟨1, "a", 10, none, 1, 1⟩, ⟨2, "b", 5, none, 2, 2⟩]
      [⟨1, "a", 10, none, 1, 5⟩, ⟨2, "b", 5, none, 2, 7⟩] 1).2
    (by decide) (by decide)).2.2

end ScoreWeaver
